import Mathlib

/-!
Shallow embedding of devbox's profile/shellgen core
(`internal/nix/profiles.go` and the shellgen file-generation code) and
proofs of its specified properties.

Modelling conventions:
* File contents are byte lists (`List Nat`); permissions are mode bits
  (`Nat`); modification times are abstract `Nat` timestamps.  A write
  stamps the current clock `now` into the file's mtime; a read or a
  chmod leaves the mtime alone (as on POSIX, chmod changes ctime only).
* I/O errors that the Go code can only receive from the OS
  (disk full, etc.) are not modelled for the writer; the reader models
  the three outcomes the Go code distinguishes (`fs.ErrNotExist`,
  any other read error, and successfully read bytes).
-/

namespace Devbox

/-- A regular file: its bytes, its permission bits, its mtime. -/
structure File where
  content : List Nat
  perm : Nat
  mtime : Nat
  deriving DecidableEq, Repr

/-- The state `overwriteFileIfChanged` acts on: the (possibly absent)
file at the target path, and the current clock used to stamp mtimes. -/
structure FsState where
  file : Option File
  now : Nat
  deriving DecidableEq, Repr

/-- Go `File.Truncate(n)`: shrink to `n` bytes, or zero-extend to `n`. -/
def truncateTo (c : List Nat) (n : Nat) : List Nat :=
  c.take n ++ List.replicate (n - c.length) 0

/-- Go `File.WriteAt(chunk, off)`: overwrite `chunk.length` bytes of
`base` starting at `off`, keeping the bytes before and after. -/
def writeAtList (base : List Nat) (off : Nat) (chunk : List Nat) : List Nat :=
  base.take off ++ chunk ++ base.drop (off + chunk.length)

/-- The chmod step of `overwriteFileIfChanged`: `file.Chmod(perm)` is
called when the current permission differs from the requested one. -/
def applyPerm (f : File) (perm : Nat) : File :=
  if f.perm ≠ perm then { f with perm := perm } else f

/-- Go `overwriteFile(f, data, offset)`: truncate `f` to `len(data)`,
then write `data[offset:]` at `offset`.  The write stamps `now` as the
file's new mtime. -/
def overwriteFile (f : File) (data : List Nat) (offset : Nat) (now : Nat) : File :=
  { content := writeAtList (truncateTo f.content data.length) offset (data.drop offset)
    perm := f.perm
    mtime := now }

/-- The byte-comparison loop of `overwriteFileIfChanged`: walk `data`
(index `k` counting from the start) against the reader over the file
bytes `c`; report the first offset where the file byte differs from the
data byte, or where `ReadByte` fails (file exhausted). -/
def firstMismatchAux (c data : List Nat) (k : Nat) : Option Nat :=
  match data with
  | [] => none
  | b :: rest =>
    match c with
    | [] => some k
    | a :: c' => if a ≠ b then some k else firstMismatchAux c' rest (k + 1)

/-- First offset at which the file bytes `c` and the new bytes `data`
disagree (`none` when every byte of `data` is already in place). -/
def firstMismatch (c data : List Nat) : Option Nat :=
  firstMismatchAux c data 0

/-- Go `overwriteFileIfChanged(path, data, perm)`:
* no file at `path`: create it with `data` and `perm` (in Go, either
  `O_CREATE` succeeds directly or the parent is first created with
  `MkdirAll` followed by `WriteFile`; both land on the same state);
* otherwise chmod if the permission differs, then: full rewrite from
  offset 0 when the sizes differ, rewrite from the first mismatching
  offset when a mismatch is found, and no write at all otherwise. -/
def overwriteFileIfChanged (data : List Nat) (perm : Nat) (s : FsState) : FsState :=
  match s.file with
  | none => { file := some ⟨data, perm, s.now⟩, now := s.now }
  | some f0 =>
    let f := applyPerm f0 perm
    if f.content.length ≠ data.length then
      { file := some (overwriteFile f data 0 s.now), now := s.now }
    else
      match firstMismatch f.content data with
      | some k => { file := some (overwriteFile f data k s.now), now := s.now }
      | none => { file := some f, now := s.now }

/-- Abstract template error (parse or execution failure payload). -/
inductive TmplErr where
  | err (msg : String)
  deriving DecidableEq, Repr

/-- Outcome of the template stage of `writeFromTemplate`: the parse
(`ParseFS`) outcome, the bytes the execution produced into the shared
buffer `tmplBuf` (possibly a partial render), and whether execution
failed.  These are inputs to the embedding because the template engine
itself is external to the verified core. -/
structure RenderStep where
  parseErr : Option TmplErr
  execOut : List Nat
  execErr : Option TmplErr
  deriving DecidableEq, Repr

/-- Error returned by `writeFromTemplate`, tagged with the stage that
failed (mirroring the `redact.Errorf` context strings in the Go code). -/
inductive GenErr where
  | parseCtx (e : TmplErr)
  | execCtx (e : TmplErr)
  deriving DecidableEq, Repr

/-- Go `writeFromTemplate(path, plan, tmplName, generatedName)`: resolve
and parse the template (failure returns before the buffer or the file is
touched), execute it into the in-memory buffer (failure returns before
the file is touched), and only then hand the rendered bytes to
`overwriteFileIfChanged` with mode `0o644`. -/
def writeFromTemplate (r : RenderStep) (s : FsState) : FsState × Except GenErr Unit :=
  match r.parseErr with
  | some e => (s, .error (.parseCtx e))
  | none =>
    match r.execErr with
    | some e => (s, .error (.execCtx e))
    | none => (overwriteFileIfChanged r.execOut 0o644 s, .ok ())

/-! ### Manifest reading (`readManifest`, `nextPriority`) -/

/-- JSON values, as decoded by Go `encoding/json`.  Numbers are modelled
as integers (the manifest schema only carries `priority: int`; a
fractional number would fail Go's decode into `int` and is out of the
modelled input space). -/
inductive Json where
  | null
  | bool (b : Bool)
  | num (n : Int)
  | str (s : String)
  | arr (xs : List Json)
  | obj (fields : List (String × Json))

/-- Field lookup in a decoded JSON object.  Go's decoder processes the
keys in order and a later duplicate overwrites an earlier one, so the
last binding wins. -/
def lookupField (k : String) (fields : List (String × Json)) : Option Json :=
  List.lookup k fields.reverse

/-- Smallest value of Go's 64-bit `int`. -/
def int64Min : Int := -9223372036854775808

/-- Largest value of Go's 64-bit `int` (`math.MaxInt64`). -/
def int64Max : Int := 9223372036854775807

/-- Two's-complement 64-bit wraparound, as performed by Go's `int`
arithmetic on overflow. -/
def wrapInt64 (n : Int) : Int :=
  (n + 9223372036854775808) % 18446744073709551616 - 9223372036854775808

/-- Go decode of a JSON value into `struct { Priority int }`: an object
(reading its `priority` field, absent or `null` leaving the zero value),
or `null` (leaving the zero struct); anything else is a type error.  A
number outside the 64-bit `int` range fails Go's decode into `int`. -/
def decodePriorityObj : Json → Option Int
  | .null => some 0
  | .obj fields =>
    match lookupField "priority" fields with
    | none => some 0
    | some .null => some 0
    | some (.num n) => if int64Min ≤ n ∧ n ≤ int64Max then some n else none
    | some _ => none
  | _ => none

/-- Go decode of a JSON value into the modern manifest shape
`struct { Elements map[string]struct{ Priority int } }`, returning the
priorities of the map's values.  A missing or `null` `elements` key
leaves the nil map; a non-object `elements` is a type error. -/
def decodeModern : Json → Option (List Int)
  | .null => some []
  | .obj fields =>
    match lookupField "elements" fields with
    | none => some []
    | some .null => some []
    | some (.obj entries) => entries.mapM (fun e => decodePriorityObj e.2)
    | some _ => none
  | _ => none

/-- Go decode of a JSON value into the legacy manifest shape
`struct { Elements []struct{ Priority int } }`. -/
def decodeLegacy : Json → Option (List Int)
  | .null => some []
  | .obj fields =>
    match lookupField "elements" fields with
    | none => some []
    | some .null => some []
    | some (.arr xs) => xs.mapM decodePriorityObj
    | some _ => none
  | _ => none

/-- What `os.ReadFile(profilePath + "/manifest.json")` can come back
with: the file is absent, the read fails with some other error `e`, or
bytes are read — `parsed = some j` when they are valid JSON `j`, and
`parsed = none` when they are not JSON at all (then every `Unmarshal`
fails with a syntax error). -/
inductive ManifestFile where
  | notExist
  | readFailure (e : String)
  | content (parsed : Option Json)

/-- Error returned by `readManifest`: the propagated read error, or a
decode error after both shapes were tried. -/
inductive ManifestErr where
  | readFailure (e : String)
  | decodeErr
  deriving DecidableEq, Repr

/-- Go `manifest`: the normalized form; each element is reduced to its
priority (`Elements []struct{ Priority int }`). -/
structure manifest where
  Elements : List Int
  deriving DecidableEq, Repr

/-- Go `json.Unmarshal(data, &modernMani)` on the raw bytes: fails on
non-JSON bytes, otherwise decodes the modern shape. -/
def unmarshalModern (parsed : Option Json) : Option (List Int) :=
  parsed.bind decodeModern

/-- Go `json.Unmarshal(data, &legacyMani)` on the raw bytes. -/
def unmarshalLegacy (parsed : Option Json) : Option (List Int) :=
  parsed.bind decodeLegacy

/-- Go `readManifest(profilePath)`: a missing file is an empty manifest
and no error; any other read error is returned; otherwise the modern
shape is tried first and the legacy shape only when the modern decode
fails, with a decode error when both fail. -/
def readManifest : ManifestFile → Except ManifestErr manifest
  | .notExist => .ok ⟨[]⟩
  | .readFailure e => .error (.readFailure e)
  | .content d =>
    match unmarshalModern d with
    | some ps => .ok ⟨ps⟩
    | none =>
      match unmarshalLegacy d with
      | some ps => .ok ⟨ps⟩
      | none => .error .decodeErr

/-- Go `DefaultPriority`. -/
def DefaultPriority : Int := 5

/-- The max loop of `nextPriority`: start from `DefaultPriority` and
take every element priority that exceeds the running max. -/
def nextPriorityMax (elems : List Int) : Int :=
  elems.foldl (fun mx p => if p > mx then p else mx) DefaultPriority

/-- Go `nextPriority(profilePath)`: read the manifest *discarding the
error* (`m, _ := readManifest(...)`; on error `readManifest` returned
the zero `manifest{}`), then format `max + 1` with `%d`.  `max` is a Go
`int`, so the increment wraps at `math.MaxInt64`. -/
def nextPriority (mf : ManifestFile) : String :=
  let m := match readManifest mf with
    | .ok m => m
    | .error _ => ⟨[]⟩
  toString (wrapInt64 (nextPriorityMax m.Elements + 1))

/-! ### `ProfileInstall` and the insecure-package guard -/

/-- Go `fmt.Sprintf("%s", vulns)` for a `[]string`. -/
def fmtStrSlice (xs : List String) : String :=
  "[" ++ String.intercalate " " xs ++ "]"

/-- The error text `ProfileInstall` builds for an insecure package:
name, optional known-vulnerability list, override instruction. -/
def errString (installable : String) (vulns : List String) : String :=
  let s := "Package " ++ installable ++ " is insecure. \n\n"
  let s := if vulns.length > 0 then
      s ++ ("Known vulnerabilities: " ++ fmtStrSlice vulns ++ " \n\n")
    else s
  s ++ "To override use `devbox add <pkg> --allow-insecure`"

/-- The collaborators `ProfileInstall` consults: the insecure-override
flag and the vulnerability lookups keyed by the installable token. -/
structure InstallDeps where
  isInsecureAllowed : Bool
  packageIsInsecure : String → Bool
  packageKnownVulnerabilities : String → List String

/-- Observable outcome of `ProfileInstall`: a user error returned
before anything is spawned, or the argument list of the spawned
`nix profile install` subprocess. -/
inductive InstallOutcome where
  | userError (msg : String)
  | spawned (args : List String)

/-- Go `ProfileInstall(ctx, args)`: the insecure guard first (returning
a `usererr` before any subprocess), then the `nix profile install`
command with `--impure`, the `nextPriority` value, the optional
`--offline` flag, and the installable appended. -/
def ProfileInstall (deps : InstallDeps) (installable : String) (offline : Bool)
    (profilePath : String) (mf : ManifestFile) : InstallOutcome :=
  if !deps.isInsecureAllowed && deps.packageIsInsecure installable then
    .userError (errString installable (deps.packageKnownVulnerabilities installable))
  else
    .spawned ((["profile", "install", "--profile", profilePath, "--impure",
        "--priority", nextPriority mf]
      ++ (if offline then ["--offline"] else [])) ++ [installable])

/-! ### Git visibility bootstrapping (`isProjectInGitRepo`, `makeFlakeFile`) -/

/-- Result of `os.Stat(filepath.Join(dir, ".git"))`: the marker exists,
it does not exist (`fs.ErrNotExist`), or the stat fails otherwise. -/
inductive StatR where
  | found
  | notExist
  | otherErr
  deriving DecidableEq, Repr

/-- Go `isProjectInGitRepo(dir)`.  A path is its list of components
with the innermost directory first, so `"/home/u/proj"` is
`["proj", "u", "home"]`, the root `"/"` is `[]`, and `filepath.Dir`
is `List.tail` in this representation; `stat d` is the result of
`os.Stat(filepath.Join(d, ".git"))`.  The loop runs while
`dir != "/"`: a successful stat returns true, an error other than
not-exist returns false, and not-exist moves to the parent. -/
def isProjectInGitRepo (stat : List String → StatR) : List String → Bool
  | [] => false
  | d@(_ :: parent) =>
    match stat d with
    | .found => true
    | .otherErr => false
    | .notExist => isProjectInGitRepo stat parent

/-- The observable git side effects of `makeFlakeFile`: whether
`git init` ran in the flake directory, and which files were staged. -/
structure GitActions where
  repoInit : Bool
  staged : List String
  deriving DecidableEq, Repr

/-- The version-control part of Go `makeFlakeFile(d, outPath, plan)`
(the preceding `flake.nix` template write is `writeFromTemplate` above;
subprocess failures of `git` itself are not modelled): when no ancestor
of `outPath` holds a `.git` marker it carries on without any git
action; otherwise it runs `git init` in the flake directory and stages
`flake.nix`, plus `glibc-patch/flake.nix` when the plan needs the glibc
patch. -/
def makeFlakeFile (stat : List String → StatR) (outPath : List String)
    (needsGlibcPatch : Bool) : GitActions :=
  if isProjectInGitRepo stat outPath then
    { repoInit := true
      staged := "flake.nix" :: (if needsGlibcPatch then ["glibc-patch/flake.nix"] else []) }
  else
    { repoInit := false, staged := [] }

/-! ### Concrete example inputs -/

/-- The legacy manifest `{"elements":[{"priority":5},{"priority":9}]}`. -/
def legacyExample : Json :=
  .obj [("elements", .arr [.obj [("priority", .num 5)], .obj [("priority", .num 9)]])]

/-- A modern manifest with two entries of priorities 5 and 9. -/
def modernExample : Json :=
  .obj [("elements", .obj [("a", .obj [("priority", .num 5)]),
                           ("b", .obj [("priority", .num 9)])])]

/-- A legacy manifest with priorities `[5, 7, 3]`. -/
def legacy573 : Json :=
  .obj [("elements", .arr [.obj [("priority", .num 5)], .obj [("priority", .num 7)],
                           .obj [("priority", .num 3)]])]

/-- A manifest file whose bytes are valid JSON that fits neither
manifest shape (the JSON number `3`), so both decodes fail. -/
def badManifest : ManifestFile := .content (some (.num 3))

/-- A legacy manifest holding one element at `math.MaxInt64`, a value
Go's decode into `int` accepts. -/
def maxPriorityManifest : ManifestFile :=
  .content (some (.obj [("elements",
    .arr [.obj [("priority", .num 9223372036854775807)]])]))

/-- A stat oracle with a non-not-exist failure at `/home/u/proj` and a
`.git` marker at `/home/u` (paths innermost-first). -/
def statEx : List String → StatR := fun l =>
  if l = ["proj", "u", "home"] then .otherErr
  else if l = ["u", "home"] then .found
  else .notExist

/-! ### Helper lemmas -/

theorem applyPerm_content (f : File) (p : Nat) : (applyPerm f p).content = f.content := by
  unfold applyPerm; split <;> rfl

theorem applyPerm_mtime (f : File) (p : Nat) : (applyPerm f p).mtime = f.mtime := by
  unfold applyPerm; split <;> rfl

theorem applyPerm_perm (f : File) (p : Nat) : (applyPerm f p).perm = p := by
  unfold applyPerm; split
  · rfl
  · next h => simpa using h

theorem firstMismatchAux_self (c : List Nat) (k : Nat) :
    firstMismatchAux c c k = none := by
  induction c generalizing k with
  | nil => rfl
  | cons a c ih => simp [firstMismatchAux, ih]

theorem firstMismatchAux_none (c d : List Nat) (k : Nat)
    (h : firstMismatchAux c d k = none) :
    d.length ≤ c.length ∧ c.take d.length = d := by
  induction d generalizing c k with
  | nil => simp
  | cons b rest ih =>
    cases c with
    | nil => simp [firstMismatchAux] at h
    | cons a c =>
      by_cases hab : a = b
      · subst hab
        simp only [firstMismatchAux, ne_eq, not_true_eq_false, if_neg,
          reduceIte] at h
        obtain ⟨h1, h2⟩ := ih c (k + 1) h
        refine ⟨by simpa using h1, ?_⟩
        simp [List.take, h2]
      · simp [firstMismatchAux, hab] at h

theorem firstMismatchAux_some (c d : List Nat) (k j : Nat)
    (h : firstMismatchAux c d k = some j) :
    ∃ i, j = k + i ∧ i < d.length ∧ c.take i = d.take i := by
  induction d generalizing c k with
  | nil => simp [firstMismatchAux] at h
  | cons b rest ih =>
    cases c with
    | nil =>
      refine ⟨0, ?_, by simp, by simp⟩
      simp [firstMismatchAux] at h
      omega
    | cons a c =>
      by_cases hab : a = b
      · subst hab
        simp only [firstMismatchAux, ne_eq, not_true_eq_false, if_neg,
          reduceIte] at h
        obtain ⟨i, hi1, hi2, hi3⟩ := ih c (k + 1) h
        refine ⟨i + 1, by omega, by simpa using hi2, ?_⟩
        simp [List.take, hi3]
      · simp only [firstMismatchAux, ne_eq, hab, not_false_eq_true, if_pos,
          reduceIte, Option.some.injEq] at h
        exact ⟨0, by omega, by simp, by simp⟩

theorem firstMismatch_none_eq (c d : List Nat) (hl : c.length = d.length)
    (h : firstMismatch c d = none) : c = d := by
  obtain ⟨-, h2⟩ := firstMismatchAux_none c d 0 h
  rwa [← hl, List.take_length] at h2

theorem firstMismatch_some_bound (c d : List Nat) (k : Nat)
    (h : firstMismatch c d = some k) : k < d.length ∧ c.take k = d.take k := by
  obtain ⟨i, hi1, hi2, hi3⟩ := firstMismatchAux_some c d 0 k h
  obtain rfl : k = i := by omega
  exact ⟨hi2, hi3⟩

theorem truncateTo_length (c : List Nat) (n : Nat) : (truncateTo c n).length = n := by
  simp [truncateTo]
  omega

theorem truncateTo_self (c : List Nat) (n : Nat) (h : c.length = n) :
    truncateTo c n = c := by
  subst h
  simp [truncateTo]

theorem writeAtList_full (base data : List Nat) (h : base.length = data.length) :
    writeAtList base 0 data = data := by
  simp [writeAtList, ← h, List.drop_length]

theorem writeAtList_tail (base data : List Nat) (k : Nat)
    (hb : base.length = data.length) (hk : k ≤ data.length) :
    writeAtList base k (data.drop k) = base.take k ++ data.drop k := by
  have hlen : k + (data.drop k).length = base.length := by
    simp [hb]
    omega
  simp [writeAtList, hlen, List.drop_length]
  omega

theorem foldl_max_ge_init (ps : List Int) (a : Int) : a ≤ ps.foldl max a := by
  induction ps generalizing a with
  | nil => simp
  | cons p ps ih => exact le_trans (le_max_left a p) (ih (max a p))

theorem foldl_max_ge_mem (ps : List Int) (a : Int) :
    ∀ p ∈ ps, p ≤ ps.foldl max a := by
  induction ps generalizing a with
  | nil => simp
  | cons q ps ih =>
    intro p hp
    rcases List.mem_cons.mp hp with rfl | hp
    · exact le_trans (le_max_right a p) (foldl_max_ge_init ps (max a p))
    · exact ih (max a q) p hp

theorem foldl_max_cases (ps : List Int) (a : Int) :
    ps.foldl max a = a ∨ ps.foldl max a ∈ ps := by
  induction ps generalizing a with
  | nil => simp
  | cons p ps ih =>
    rcases ih (max a p) with h | h
    · rcases max_choice a p with hm | hm
      · left; simp only [List.foldl_cons]; rw [h, hm]
      · right; simp only [List.foldl_cons]; rw [h, hm]; exact List.mem_cons_self p ps
    · right; exact List.mem_cons_of_mem p h

theorem wrapInt64_eq_self (n : Int) (h1 : int64Min ≤ n) (h2 : n ≤ int64Max) :
    wrapInt64 n = n := by
  unfold wrapInt64
  unfold int64Min at h1
  unfold int64Max at h2
  rw [Int.emod_eq_of_lt (by omega) (by omega)]
  ring

theorem nextPriorityMax_eq_foldl (ps : List Int) :
    nextPriorityMax ps = ps.foldl max DefaultPriority := by
  unfold nextPriorityMax
  congr 1
  funext mx p
  rcases le_or_lt p mx with h | h
  · simp [not_lt.mpr h, max_eq_left h]
  · simp [h, max_eq_right h.le]

theorem applyPerm_of_eq (f : File) (p : Nat) (h : f.perm = p) : applyPerm f p = f := by
  simp [applyPerm, h]

/-! ### Claim theorems -/

/-- C1: when the file at the path already holds exactly the new bytes
(same size and byte-for-byte equal), `overwriteFileIfChanged` performs
no write: the file's content and modification time are unchanged, a
second identical call is likewise a no-op, and this holds regardless of
whether a permission change was applied (the chmod touches only the
permission bits). -/
theorem overwriteFileIfChanged_noop_on_unchanged (f : File) (data : List Nat)
    (perm now now2 : Nat) (h : f.content = data) :
    ∃ f1 f2,
      overwriteFileIfChanged data perm ⟨some f, now⟩ = ⟨some f1, now⟩ ∧
      f1.content = f.content ∧ f1.mtime = f.mtime ∧ f1.perm = perm ∧
      overwriteFileIfChanged data perm ⟨some f1, now2⟩ = ⟨some f2, now2⟩ ∧
      f2.content = f.content ∧ f2.mtime = f.mtime := by
  subst h
  refine ⟨applyPerm f perm, applyPerm f perm, ?_, applyPerm_content f _,
    applyPerm_mtime f _, applyPerm_perm f _, ?_, applyPerm_content f _,
    applyPerm_mtime f _⟩
  · simp [overwriteFileIfChanged, applyPerm_content, firstMismatch, firstMismatchAux_self]
  · simp [overwriteFileIfChanged, applyPerm_content, firstMismatch, firstMismatchAux_self,
      applyPerm_of_eq _ _ (applyPerm_perm f perm)]

/-- C1 witness: a file that already holds the two requested bytes keeps
its content and its mtime `3` across two synchronizing calls (at clock
times `8` and `9`), while its permission is brought from `0o755` to the
requested `0o644`. -/
theorem overwriteFileIfChanged_noop_on_unchanged_witness :
    ∃ f1 f2,
      overwriteFileIfChanged [10, 20] 420 ⟨some ⟨[10, 20], 493, 3⟩, 8⟩ = ⟨some f1, 8⟩ ∧
      f1.content = [10, 20] ∧ f1.mtime = 3 ∧ f1.perm = 420 ∧
      overwriteFileIfChanged [10, 20] 420 ⟨some f1, 9⟩ = ⟨some f2, 9⟩ ∧
      f2.content = [10, 20] ∧ f2.mtime = 3 :=
  overwriteFileIfChanged_noop_on_unchanged ⟨[10, 20], 493, 3⟩ [10, 20] 420 8 9 rfl

/-- C2: on an existing file, `overwriteFileIfChanged` always leaves the
file holding exactly the new bytes, and by the specified steps: a size
difference triggers `overwriteFile` from offset 0 (truncate to the data
length and rewrite everything); equal sizes with first mismatch at `k`
rewrite only from `k` onward (bytes before `k` are the original file
bytes); byte-equal content is left untouched. -/
theorem overwriteFileIfChanged_reconciliation (f : File) (data : List Nat)
    (perm now : Nat) :
    ∃ f', overwriteFileIfChanged data perm ⟨some f, now⟩ = ⟨some f', now⟩ ∧
      f'.content = data ∧ f'.perm = perm ∧
      (f.content.length ≠ data.length →
        f' = overwriteFile (applyPerm f perm) data 0 now ∧ f'.mtime = now) ∧
      (∀ k, f.content.length = data.length → firstMismatch f.content data = some k →
        f'.content = f.content.take k ++ data.drop k ∧ f'.mtime = now) ∧
      (f.content = data → f'.content = f.content ∧ f'.mtime = f.mtime) := by
  by_cases hl : f.content.length = data.length
  · cases hm : firstMismatch f.content data with
    | none =>
      have hcd : f.content = data := firstMismatch_none_eq _ _ hl hm
      refine ⟨applyPerm f perm, ?_, ?_, applyPerm_perm f _, fun hc => absurd hl hc,
        ?_, fun _ => ⟨applyPerm_content f _, applyPerm_mtime f _⟩⟩
      · simp [overwriteFileIfChanged, applyPerm_content, hl, hm]
      · rw [applyPerm_content, hcd]
      · intro k _ hk
        exact Option.noConfusion hk
    | some k =>
      have hb := firstMismatch_some_bound _ _ _ hm
      have hcontent : (overwriteFile (applyPerm f perm) data k now).content
          = f.content.take k ++ data.drop k := by
        simp only [overwriteFile, applyPerm_content]
        rw [truncateTo_self _ _ hl, writeAtList_tail _ _ _ hl (le_of_lt hb.1)]
      refine ⟨overwriteFile (applyPerm f perm) data k now, ?_, ?_, ?_,
        fun hc => absurd hl hc, fun j _ hj => ?_, fun hcd => ?_⟩
      · simp [overwriteFileIfChanged, applyPerm_content, hl, hm]
      · rw [hcontent, hb.2, List.take_append_drop]
      · simp [overwriteFile, applyPerm_perm]
      · obtain rfl : k = j := by simpa using hj
        exact ⟨hcontent, rfl⟩
      · exfalso
        rw [hcd] at hm
        simp [firstMismatch, firstMismatchAux_self] at hm
  · refine ⟨overwriteFile (applyPerm f perm) data 0 now, ?_, ?_, ?_,
      fun _ => ⟨rfl, rfl⟩, fun k hk => absurd hk hl, fun hcd => absurd (hcd ▸ rfl) hl⟩
    · simp [overwriteFileIfChanged, applyPerm_content, hl]
    · simp only [overwriteFile, applyPerm_content, List.drop_zero]
      exact writeAtList_full _ _ (by rw [truncateTo_length])
    · simp [overwriteFile, applyPerm_perm]

/-- C2 witness: the file `"AAAABBBB"` synchronized to `"AAAACCCC"`
(bytes 65/66/67) is rewritten only from offset 4 (the final content is
the old first four bytes followed by the new tail, and equals the new
data), and a five-byte file synchronized to two bytes is truncated to
exactly those two bytes. -/
theorem overwriteFileIfChanged_reconciliation_witness :
    (∃ f', overwriteFileIfChanged [65, 65, 65, 65, 67, 67, 67, 67] 420
        ⟨some ⟨[65, 65, 65, 65, 66, 66, 66, 66], 420, 3⟩, 9⟩ = ⟨some f', 9⟩ ∧
      f'.content = [65, 65, 65, 65, 67, 67, 67, 67] ∧
      f'.content = List.take 4 [65, 65, 65, 65, 66, 66, 66, 66]
        ++ List.drop 4 [65, 65, 65, 65, 67, 67, 67, 67] ∧
      f'.mtime = 9) ∧
    (∃ g', overwriteFileIfChanged [1, 2] 420 ⟨some ⟨[1, 2, 3, 4, 5], 420, 3⟩, 9⟩
        = ⟨some g', 9⟩ ∧ g'.content = [1, 2]) := by
  constructor
  · obtain ⟨f', h1, h2, -, -, h5, -⟩ := overwriteFileIfChanged_reconciliation
      ⟨[65, 65, 65, 65, 66, 66, 66, 66], 420, 3⟩ [65, 65, 65, 65, 67, 67, 67, 67] 420 9
    obtain ⟨hk1, hk2⟩ := h5 4 rfl rfl
    exact ⟨f', h1, h2, hk1, hk2⟩
  · obtain ⟨g', h1, h2, -⟩ := overwriteFileIfChanged_reconciliation
      ⟨[1, 2, 3, 4, 5], 420, 3⟩ [1, 2] 420 9
    exact ⟨g', h1, h2⟩

/-- C3 counterexample: a manifest file whose bytes are valid JSON of
neither shape makes `readManifest` return a decode error, yet
`nextPriority` discards it (`m, _ := readManifest(...)`) and
`ProfileInstall` proceeds to spawn the subprocess with the default
priority — the decode error never reaches the install caller, refuting
the claim that only the missing-manifest case is swallowed. -/
theorem profileInstall_swallows_manifest_error :
    readManifest badManifest = .error .decodeErr ∧
    nextPriority badManifest = "6" ∧
    ProfileInstall ⟨true, fun _ => false, fun _ => []⟩ "pkg" false "/profile" badManifest
      = .spawned ["profile", "install", "--profile", "/profile", "--impure",
          "--priority", "6", "pkg"] :=
  ⟨rfl, rfl, rfl⟩

/-- C3 amended: `readManifest` itself propagates read and decode errors
of an existing manifest to its caller, but its only caller on the
install path, `nextPriority`, discards every such error and falls back
to the default-based priority `"6"`, so `ProfileInstall` proceeds as if
the manifest were empty and its caller never sees the error. -/
theorem readManifest_error_swallowed_by_install (mf : ManifestFile) (e : ManifestErr)
    (h : readManifest mf = .error e) :
    nextPriority mf = "6" ∧
    ∀ (deps : InstallDeps) (installable : String) (off : Bool) (path : String),
      deps.isInsecureAllowed = true →
      ProfileInstall deps installable off path mf =
        .spawned ((["profile", "install", "--profile", path, "--impure",
            "--priority", "6"] ++ (if off then ["--offline"] else []))
          ++ [installable]) := by
  have h6 : nextPriority mf = "6" := by
    unfold nextPriority
    rw [h]
    rfl
  refine ⟨h6, ?_⟩
  intro deps installable off path hall
  simp [ProfileInstall, hall, h6]

/-- C3 amended witness: unparseable manifest bytes give the default
priority and an error-free spawned install command. -/
theorem readManifest_error_swallowed_by_install_witness :
    nextPriority (ManifestFile.content none) = "6" ∧
    ProfileInstall ⟨true, fun _ => true, fun _ => ["CVE"]⟩ "hello" true "/p"
        (.content none)
      = .spawned ["profile", "install", "--profile", "/p", "--impure",
          "--priority", "6", "--offline", "hello"] := by
  have h := readManifest_error_swallowed_by_install (.content none) .decodeErr rfl
  exact ⟨h.1, h.2 ⟨true, fun _ => true, fun _ => ["CVE"]⟩ "hello" true "/p" rfl⟩

/-- C4 counterexample: at `/home/u/proj` the `.git` stat fails with an
error other than not-found while the parent `/home/u` does hold a
marker.  `isProjectInGitRepo` aborts the walk and returns `false`, and
`makeFlakeFile` performs no git action — exactly the benign "not a
repo" outcome.  No error is propagated (the walker returns only a
boolean), refuting the claimed distinction between the two failure
modes. -/
theorem isProjectInGitRepo_otherErr_treated_as_no_repo :
    statEx ["proj", "u", "home"] = .otherErr ∧
    statEx ["u", "home"] = .found ∧
    isProjectInGitRepo statEx ["proj", "u", "home"] = false ∧
    isProjectInGitRepo statEx ["u", "home"] = true ∧
    makeFlakeFile statEx ["proj", "u", "home"] true = ⟨false, []⟩ :=
  ⟨rfl, rfl, rfl, rfl, rfl⟩

/-- C4 amended: when every stat of a `.git` marker reports not-found,
the walk is a benign no-op (no inner repository, nothing staged); when
a stat fails with any other error, the walk aborts immediately and is
likewise treated as "not a repo" — no error is returned, the function
being boolean-valued; and when the walk does find a marker, the inner
repository is initialized and the build files are staged. -/
theorem isProjectInGitRepo_error_behavior :
    (∀ (stat : List String → StatR) (d : List String) (p : Bool),
        (∀ l, stat l = .notExist) →
        isProjectInGitRepo stat d = false ∧ makeFlakeFile stat d p = ⟨false, []⟩) ∧
    (∀ (stat : List String → StatR) (d : List String) (p : Bool),
        d ≠ [] → stat d = .otherErr →
        isProjectInGitRepo stat d = false ∧ makeFlakeFile stat d p = ⟨false, []⟩) ∧
    (∀ (stat : List String → StatR) (d : List String) (p : Bool),
        isProjectInGitRepo stat d = true →
        makeFlakeFile stat d p
          = ⟨true, "flake.nix" :: (if p then ["glibc-patch/flake.nix"] else [])⟩) := by
  have hwalk : ∀ (stat : List String → StatR) (d : List String),
      (∀ l, stat l = .notExist) → isProjectInGitRepo stat d = false := by
    intro stat d hall
    induction d with
    | nil => rfl
    | cons a d ih => simp [isProjectInGitRepo, hall, ih]
  refine ⟨?_, ?_, ?_⟩
  · intro stat d p hall
    exact ⟨hwalk stat d hall, by simp [makeFlakeFile, hwalk stat d hall]⟩
  · intro stat d p hne hstat
    cases d with
    | nil => exact absurd rfl hne
    | cons a d =>
      have hfalse : isProjectInGitRepo stat (a :: d) = false := by
        simp [isProjectInGitRepo, hstat]
      exact ⟨hfalse, by simp [makeFlakeFile, hfalse]⟩
  · intro stat d p htrue
    simp [makeFlakeFile, htrue]

/-- C4 amended witness: an all-not-found walk is a no-op; an
immediate non-not-found stat failure is the same no-op; a found marker
initializes the repo and stages both build files. -/
theorem isProjectInGitRepo_error_behavior_witness :
    (isProjectInGitRepo (fun _ => .notExist) ["proj", "u", "home"] = false ∧
      makeFlakeFile (fun _ => .notExist) ["proj", "u", "home"] false = ⟨false, []⟩) ∧
    (isProjectInGitRepo (fun _ => .otherErr) ["proj"] = false ∧
      makeFlakeFile (fun _ => .otherErr) ["proj"] true = ⟨false, []⟩) ∧
    makeFlakeFile (fun _ => .found) ["proj"] true
      = ⟨true, ["flake.nix", "glibc-patch/flake.nix"]⟩ := by
  have h := isProjectInGitRepo_error_behavior
  exact ⟨h.1 (fun _ => .notExist) ["proj", "u", "home"] false (fun _ => rfl),
    h.2.1 (fun _ => .otherErr) ["proj"] true (by simp) rfl,
    h.2.2 (fun _ => .found) ["proj"] true rfl⟩

/-- C5: `readManifest` tries the modern map shape first and falls back
to the legacy array shape only when the modern decode fails; when both
fail it returns a decode error; and the legacy manifest
`{"elements":[{"priority":5},{"priority":9}]}` and the modern manifest
with two entries of priorities 5 and 9 normalize to equivalent
manifests (the same priority multiset) whose maximum priority is 9. -/
theorem readManifest_modern_then_legacy :
    (∀ d ps, unmarshalModern d = some ps →
        readManifest (.content d) = .ok ⟨ps⟩) ∧
    (∀ d ps, unmarshalModern d = none → unmarshalLegacy d = some ps →
        readManifest (.content d) = .ok ⟨ps⟩) ∧
    (∀ d, unmarshalModern d = none → unmarshalLegacy d = none →
        readManifest (.content d) = .error .decodeErr) ∧
    (∃ mL mM : manifest,
        readManifest (.content (some legacyExample)) = .ok mL ∧
        readManifest (.content (some modernExample)) = .ok mM ∧
        mL.Elements.Perm mM.Elements ∧
        (9 : Int) ∈ mL.Elements ∧ (∀ p ∈ mL.Elements, p ≤ 9) ∧
        (9 : Int) ∈ mM.Elements ∧ (∀ p ∈ mM.Elements, p ≤ 9)) := by
  refine ⟨?_, ?_, ?_, ⟨[5, 9]⟩, ⟨[5, 9]⟩, rfl, rfl, List.Perm.refl _,
    by decide, by decide, by decide, by decide⟩
  · intro d ps h
    simp [readManifest, h]
  · intro d ps h1 h2
    simp [readManifest, h1, h2]
  · intro d h1 h2
    simp [readManifest, h1, h2]

/-- C5 witness: the modern example decodes via the first attempt, the
legacy example via the fallback, and a JSON boolean fails both. -/
theorem readManifest_modern_then_legacy_witness :
    readManifest (.content (some modernExample)) = .ok ⟨[5, 9]⟩ ∧
    readManifest (.content (some legacyExample)) = .ok ⟨[5, 9]⟩ ∧
    readManifest (.content (some (.bool true))) = .error .decodeErr := by
  have h := readManifest_modern_then_legacy
  exact ⟨h.1 (some modernExample) [5, 9] rfl,
    h.2.1 (some legacyExample) [5, 9] rfl rfl,
    h.2.2.1 (some (.bool true)) rfl rfl⟩

/-- C6 counterexample: the claim that the assigner returns
`max(existing priorities, 5) + 1` for *every* manifest fails at a
manifest holding the priority `math.MaxInt64` (which Go's decode into
`int` accepts): the Go `int` increment wraps, and `%d` formats the
wrapped value `-9223372036854775808`, not `max + 1 =
9223372036854775808`. -/
theorem nextPriority_wrap_counterexample :
    readManifest maxPriorityManifest = .ok ⟨[9223372036854775807]⟩ ∧
    nextPriorityMax [9223372036854775807] = 9223372036854775807 ∧
    nextPriority maxPriorityManifest = "-9223372036854775808" ∧
    toString ((9223372036854775807 : Int) + 1) = "9223372036854775808" ∧
    ("-9223372036854775808" : String) ≠ "9223372036854775808" :=
  ⟨rfl, rfl, rfl, rfl, by decide⟩

/-- C6 amended: the priority assigner returns the 64-bit-wrapped
`max(existing priorities, DEFAULT_PRIORITY) + 1` with
`DEFAULT_PRIORITY = 5`: the computed max is an upper bound of the
priorities, at least the default, and is either the default or one of
the priorities; the returned value is that max plus one whenever the
max is below `math.MaxInt64` (at the maximum the increment wraps); an
empty manifest yields `6` and priorities `[5, 7, 3]` yield `8`. -/
theorem nextPriority_wrapped_spec :
    DefaultPriority = 5 ∧
    (∀ ps : List Int,
        DefaultPriority ≤ nextPriorityMax ps ∧
        (∀ p ∈ ps, p ≤ nextPriorityMax ps) ∧
        (nextPriorityMax ps = DefaultPriority ∨ nextPriorityMax ps ∈ ps)) ∧
    (∀ mf m, readManifest mf = .ok m →
        nextPriority mf = toString (wrapInt64 (nextPriorityMax m.Elements + 1))) ∧
    (∀ ps : List Int, nextPriorityMax ps < int64Max →
        wrapInt64 (nextPriorityMax ps + 1) = nextPriorityMax ps + 1) ∧
    nextPriority .notExist = "6" ∧
    nextPriority (.content (some legacy573)) = "8" := by
  have hlub : ∀ ps : List Int,
      DefaultPriority ≤ nextPriorityMax ps ∧
      (∀ p ∈ ps, p ≤ nextPriorityMax ps) ∧
      (nextPriorityMax ps = DefaultPriority ∨ nextPriorityMax ps ∈ ps) := by
    intro ps
    rw [nextPriorityMax_eq_foldl]
    exact ⟨foldl_max_ge_init ps DefaultPriority, foldl_max_ge_mem ps DefaultPriority,
      foldl_max_cases ps DefaultPriority⟩
  refine ⟨rfl, hlub, ?_, ?_, rfl, rfl⟩
  · intro mf m h
    unfold nextPriority
    rw [h]
  · intro ps h
    have hge : DefaultPriority ≤ nextPriorityMax ps := (hlub ps).1
    unfold DefaultPriority at hge
    unfold int64Max at h
    exact wrapInt64_eq_self _ (by unfold int64Min; omega) (by unfold int64Max; omega)

/-- C6 amended witness: for priorities `[5, 7, 3]`, the computed max
bounds the member `7`, is itself the default or a member, the full
reader path returns the formatted wrapped max plus one, and at this
max the wrap is the identity. -/
theorem nextPriority_wrapped_spec_witness :
    (7 : Int) ≤ nextPriorityMax [5, 7, 3] ∧
    (nextPriorityMax [5, 7, 3] = DefaultPriority ∨
      nextPriorityMax [5, 7, 3] ∈ ([5, 7, 3] : List Int)) ∧
    nextPriority (.content (some legacy573))
      = toString (wrapInt64 (nextPriorityMax ([5, 7, 3] : List Int) + 1)) ∧
    wrapInt64 (nextPriorityMax ([5, 7, 3] : List Int) + 1)
      = nextPriorityMax ([5, 7, 3] : List Int) + 1 := by
  have h := nextPriority_wrapped_spec
  exact ⟨(h.2.1 [5, 7, 3]).2.1 7 (by decide), (h.2.1 [5, 7, 3]).2.2,
    h.2.2.1 (.content (some legacy573)) ⟨[5, 7, 3]⟩ rfl,
    h.2.2.2.1 [5, 7, 3] (by decide)⟩

/-- C7: a missing manifest file yields an empty manifest and no error,
while any other read failure is returned to the caller with its error
preserved. -/
theorem readManifest_missing_vs_failure :
    readManifest .notExist = .ok ⟨[]⟩ ∧
    (∀ e, readManifest (.readFailure e) = .error (.readFailure e)) :=
  ⟨rfl, fun _ => rfl⟩

theorem errString_decomp_pos (i : String) (v : List String) (hv : v ≠ []) :
    errString i v = "Package " ++ i ++ (" is insecure. \n\n"
      ++ ("Known vulnerabilities: " ++ (fmtStrSlice v ++ (" \n\n"
      ++ "To override use `devbox add <pkg> --allow-insecure`")))) := by
  have hl : 0 < v.length := List.length_pos.mpr hv
  simp [errString, hl, String.append_assoc]

theorem errString_decomp_neg (i : String) (v : List String) (hv : v = []) :
    errString i v = "Package " ++ i ++ (" is insecure. \n\n"
      ++ "To override use `devbox add <pkg> --allow-insecure`") := by
  subst hv
  simp [errString, String.append_assoc]

/-- C8: when the installable is flagged insecure and no override is in
effect, `ProfileInstall` returns a user-actionable error before any
subprocess is spawned, whose text contains the installable name, the
known-vulnerability list whenever it is nonempty, and the override
instruction; when the override is in effect the guard returns no error
and the install subprocess is spawned with the installable. -/
theorem profileInstall_insecure_guard (deps : InstallDeps) (installable : String)
    (off : Bool) (path : String) (mf : ManifestFile) :
    (deps.isInsecureAllowed = false → deps.packageIsInsecure installable = true →
      ∃ msg, ProfileInstall deps installable off path mf = .userError msg ∧
        (∀ args, ProfileInstall deps installable off path mf ≠ .spawned args) ∧
        (∃ a b, msg = a ++ installable ++ b) ∧
        (deps.packageKnownVulnerabilities installable ≠ [] →
          ∃ a b, msg = a ++ fmtStrSlice (deps.packageKnownVulnerabilities installable) ++ b) ∧
        (∃ a, msg = a ++ "To override use `devbox add <pkg> --allow-insecure`")) ∧
    (deps.isInsecureAllowed = true →
      ∃ args, ProfileInstall deps installable off path mf = .spawned args ∧
        installable ∈ args) := by
  constructor
  · intro h1 h2
    have he : ProfileInstall deps installable off path mf
        = .userError (errString installable (deps.packageKnownVulnerabilities installable)) := by
      simp [ProfileInstall, h1, h2]
    refine ⟨_, he, ?_, ?_, ?_, ?_⟩
    · intro args hcon
      rw [he] at hcon
      exact InstallOutcome.noConfusion hcon
    · by_cases hv : deps.packageKnownVulnerabilities installable = []
      · exact ⟨"Package ", _, errString_decomp_neg installable _ hv⟩
      · exact ⟨"Package ", _, errString_decomp_pos installable _ hv⟩
    · intro hv
      refine ⟨"Package " ++ installable ++ " is insecure. \n\n"
          ++ "Known vulnerabilities: ", " \n\n"
          ++ "To override use `devbox add <pkg> --allow-insecure`", ?_⟩
      rw [errString_decomp_pos installable _ hv]
      simp only [String.append_assoc]
    · by_cases hv : deps.packageKnownVulnerabilities installable = []
      · refine ⟨"Package " ++ installable ++ " is insecure. \n\n", ?_⟩
        rw [errString_decomp_neg installable _ hv]
        simp only [String.append_assoc]
      · refine ⟨"Package " ++ installable ++ " is insecure. \n\n"
            ++ "Known vulnerabilities: "
            ++ fmtStrSlice (deps.packageKnownVulnerabilities installable)
            ++ " \n\n", ?_⟩
        rw [errString_decomp_pos installable _ hv]
        simp only [String.append_assoc]
  · intro h1
    refine ⟨(["profile", "install", "--profile", path, "--impure", "--priority",
        nextPriority mf] ++ (if off then ["--offline"] else [])) ++ [installable],
      by simp [ProfileInstall, h1], by simp⟩

/-- C8 witness: a flagged installable without override yields the
guard error containing the name, the vulnerability list, and the
override instruction; with the override set the subprocess is spawned
with the installable among its arguments. -/
theorem profileInstall_insecure_guard_witness :
    (∃ msg, ProfileInstall ⟨false, fun _ => true, fun _ => ["CVE-2024-0001"]⟩
        "openssl-1.0" false "/p" .notExist = .userError msg ∧
      (∃ a b, msg = a ++ "openssl-1.0" ++ b) ∧
      (∃ a b, msg = a ++ fmtStrSlice ["CVE-2024-0001"] ++ b) ∧
      (∃ a, msg = a ++ "To override use `devbox add <pkg> --allow-insecure`")) ∧
    (∃ args, ProfileInstall ⟨true, fun _ => true, fun _ => ["CVE-2024-0001"]⟩
        "openssl-1.0" false "/p" .notExist = .spawned args ∧ "openssl-1.0" ∈ args) := by
  constructor
  · obtain ⟨msg, h1, -, h3, h4, h5⟩ :=
      (profileInstall_insecure_guard ⟨false, fun _ => true, fun _ => ["CVE-2024-0001"]⟩
        "openssl-1.0" false "/p" .notExist).1 rfl rfl
    exact ⟨msg, h1, h3, h4 (by simp), h5⟩
  · exact (profileInstall_insecure_guard ⟨true, fun _ => true, fun _ => ["CVE-2024-0001"]⟩
      "openssl-1.0" false "/p" .notExist).2 rfl

/-- C9: template rendering and file commit are distinct steps in
`writeFromTemplate`: a parse failure or an execution failure returns an
error with the filesystem state — in particular the existing output
file — completely untouched (even though the shared buffer may hold a
partial render), and only a successful render hands its bytes to
`overwriteFileIfChanged`. -/
theorem writeFromTemplate_two_phase (r : RenderStep) (s : FsState) :
    (∀ e, r.parseErr = none → r.execErr = some e →
        writeFromTemplate r s = (s, .error (.execCtx e))) ∧
    (∀ e, r.parseErr = some e →
        writeFromTemplate r s = (s, .error (.parseCtx e))) ∧
    (r.parseErr = none → r.execErr = none →
        writeFromTemplate r s = (overwriteFileIfChanged r.execOut 0o644 s, .ok ())) := by
  refine ⟨?_, ?_, ?_⟩
  · intro e h1 h2
    simp [writeFromTemplate, h1, h2]
  · intro e h1
    simp [writeFromTemplate, h1]
  · intro h1 h2
    simp [writeFromTemplate, h1, h2]

/-- C9 witness: an execution failure that left three bytes of partial
render in the buffer returns the execution error and leaves the
existing two-byte output file exactly as it was; the successful render
goes to the synchronizer. -/
theorem writeFromTemplate_two_phase_witness :
    writeFromTemplate ⟨none, [1, 2, 3], some (.err "field")⟩ ⟨some ⟨[9, 9], 420, 5⟩, 8⟩
      = (⟨some ⟨[9, 9], 420, 5⟩, 8⟩, .error (.execCtx (.err "field"))) ∧
    writeFromTemplate ⟨none, [7, 7], none⟩ ⟨some ⟨[9, 9], 420, 5⟩, 8⟩
      = (overwriteFileIfChanged [7, 7] 0o644 ⟨some ⟨[9, 9], 420, 5⟩, 8⟩, .ok ()) := by
  refine ⟨(writeFromTemplate_two_phase ⟨none, [1, 2, 3], some (.err "field")⟩
      ⟨some ⟨[9, 9], 420, 5⟩, 8⟩).1 (.err "field") rfl rfl,
    (writeFromTemplate_two_phase ⟨none, [7, 7], none⟩
      ⟨some ⟨[9, 9], 420, 5⟩, 8⟩).2.2 rfl rfl⟩

end Devbox
